import Mathlib

/-
Shallow embedding of `src/convertpdf.py` (DN_SuperBook_PDF_Converter_NPUver):
a command-line tool that copies PDF files into an output directory and
optionally writes OCR placeholder artifacts.

Modelling conventions:
- a filesystem path is its list of components (`pathlib.PurePath.parts`);
- the filesystem is an association list of regular files (path, content) in
  enumeration order, plus a list of existing directories;
- Python string lowering is modelled on ASCII characters (the tool only
  compares lowered extensions against ASCII literals such as ".pdf");
- external libraries (`yaml.safe_load`, `json.loads`, `importlib.util.find_spec`,
  `hash`) are oracle functions supplied by the environment;
- `shutil.copy2` transfers the source's content and raises `FileNotFoundError`
  for a missing source and `SameFileError` when source and destination are the
  same path; OS-level permissions and file/directory name collisions are
  outside the model.
-/

namespace ConvertPdf

/-- A filesystem path, as its list of components (like `PurePath.parts`). -/
abbrev FPath := List String

/-- ASCII lowering of a string, modelling `str.lower()` as used on extensions. -/
def strLower (s : String) : String := ⟨s.data.map Char.toLower⟩

/-- Index of the last occurrence of a character in a list (Python `str.rfind`). -/
def lastIdxOf (c : Char) : List Char → Option Nat
  | [] => none
  | a :: as =>
    match lastIdxOf c as with
    | some i => some (i + 1)
    | none => if a = c then some 0 else none

/-- The characters of `PurePath.suffix` of a file name: from the last dot on,
provided that dot is neither the first nor the last character. -/
def suffixChars (cs : List Char) : List Char :=
  match lastIdxOf '.' cs with
  | some i => if 0 < i ∧ i + 1 < cs.length then cs.drop i else []
  | none => []

/-- The characters of `PurePath.stem` of a file name. -/
def stemChars (cs : List Char) : List Char :=
  match lastIdxOf '.' cs with
  | some i => if 0 < i ∧ i + 1 < cs.length then cs.take i else cs
  | none => cs

/-- `PurePath.name` of a path: its last component, or `""` for the empty path. -/
def nameOf (p : FPath) : String := p.getLast?.getD ""

/-- `PurePath.suffix` of a path. -/
def pySuffix (n : String) : String := ⟨suffixChars n.data⟩

/-- `PurePath.stem` of a path's name. -/
def pyStem (n : String) : String := ⟨stemChars n.data⟩

/-- The name produced by `PurePath.with_suffix`: the old suffix (possibly empty)
is removed and the new one appended. -/
def withSuffixName (n : String) (ext : String) : String :=
  String.mk (n.data.take (n.data.length - (suffixChars n.data).length)) ++ ext

/-- `PurePath.with_name`: replace the last component. -/
def withName (p : FPath) (m : String) : FPath := p.dropLast ++ [m]

/-- `PurePath.with_suffix` at the path level. -/
def withSuffix (p : FPath) (ext : String) : FPath := withName p (withSuffixName (nameOf p) ext)

/-- `str(Path)`: components joined by "/", `"."` for the empty path. -/
def pathStr : FPath → String
  | [] => "."
  | [a] => a
  | a :: rest => a ++ "/" ++ pathStr rest

/-- Split a character list at `'/'`. -/
def splitSlash : List Char → List String
  | [] => [""]
  | c :: cs =>
    if c = '/' then "" :: splitSlash cs
    else
      match splitSlash cs with
      | [] => [String.mk [c]]
      | g :: gs => (String.mk [c] ++ g) :: gs

/-- `Path(s)` for a relative path string: split on "/" and drop empty and "."
components (pathlib normalises those away). -/
def strToPath (s : String) : FPath :=
  (splitSlash s.data).filter (fun t => t ≠ "" && t ≠ ".")

/-- Contents of a regular file. Text files carry the string written by
`write_text`; other files carry raw bytes. -/
inductive Content
  | bytes (bs : List Nat)
  | text (s : String)
deriving DecidableEq

/-- The filesystem: regular files (in enumeration order) and directories. -/
structure FS where
  files : List (FPath × Content)
  dirs : List FPath
deriving DecidableEq

/-- Content of the regular file at `p`, if any. -/
def readFile (fs : FS) (p : FPath) : Option Content :=
  (fs.files.find? (fun e => e.1 = p)).map Prod.snd

/-- Replace or add a file in the association list. -/
def setFileList : List (FPath × Content) → FPath → Content → List (FPath × Content)
  | [], p, c => [(p, c)]
  | e :: rest, p, c => if e.1 = p then (p, c) :: rest else e :: setFileList rest p c

/-- Write (create or overwrite) the regular file at `p`. -/
def setFile (fs : FS) (p : FPath) (c : Content) : FS :=
  ⟨setFileList fs.files p c, fs.dirs⟩

/-- `Path.unlink`: remove the regular file at `p`. -/
def removeFile (fs : FS) (p : FPath) : FS :=
  ⟨fs.files.filter (fun e => e.1 ≠ p), fs.dirs⟩

/-- `Path.is_file`. -/
def isFile (fs : FS) (p : FPath) : Bool := (readFile fs p).isSome

/-- `Path.is_dir`. -/
def isDir (fs : FS) (p : FPath) : Bool := decide (p ∈ fs.dirs)

/-- `Path.exists`. -/
def pathExists (fs : FS) (p : FPath) : Bool := isFile fs p || isDir fs p

/-- Whether a path matches `dir.glob("**/*")` (recursive: any strict descendant)
or `dir.glob("*")` (immediate children). -/
def globPred (dir : FPath) (recursive : Bool) (p : FPath) : Bool :=
  decide (dir <+: p) &&
    (if recursive then decide (dir.length < p.length) else decide (p.length = dir.length + 1))

/-- The entries (files and directories) enumerated by `dir.glob(pattern)`,
in filesystem enumeration order. -/
def glob (fs : FS) (dir : FPath) (recursive : Bool) : List FPath :=
  (fs.files.map Prod.fst ++ fs.dirs).filter (globPred dir recursive)

instance {ε α : Type} [DecidableEq ε] [DecidableEq α] : DecidableEq (Except ε α) := fun a b =>
  match a, b with
  | .ok x, .ok y =>
    if h : x = y then .isTrue (by rw [h]) else .isFalse (fun hc => h (Except.ok.inj hc))
  | .error x, .error y =>
    if h : x = y then .isTrue (by rw [h]) else .isFalse (fun hc => h (Except.error.inj hc))
  | .ok _, .error _ => .isFalse (fun hc => Except.noConfusion hc)
  | .error _, .ok _ => .isFalse (fun hc => Except.noConfusion hc)

/-- Result of `importlib.util.find_spec` on one module name: a resolvable spec,
`None`, or a raised `ModuleNotFoundError` (the lookup error the code catches). -/
inductive FindSpecRes
  | found
  | absent
  | raisesModuleNotFound
deriving DecidableEq

/-- Whether the probe produced a non-`None` spec; a raised `ModuleNotFoundError`
is caught and treated as `None` by `detect_backend`. -/
def specResolvable : FindSpecRes → Bool
  | .found => true
  | .absent => false
  | .raisesModuleNotFound => false

/-- `detect_backend`: probe "openvino.runtime" then "openvino"; return "NPU" if
either resolves, else "CPU". -/
def detect_backend (findSpec : String → FindSpecRes) : String :=
  if specResolvable (findSpec ("openvino.runtime")) then "NPU"
  else if specResolvable (findSpec ("openvino")) then "NPU"
  else "CPU"

/-- A value in the untyped config mapping (the keys the program reads hold
strings or booleans). -/
inductive Value
  | vStr (s : String)
  | vBool (b : Bool)
deriving DecidableEq

/-- `str(value)` view used where the program applies `Path(...)` to a merged
setting; non-string values would raise `TypeError` in Python (outside the model). -/
def valueAsStr : Value → String
  | .vStr s => s
  | .vBool _ => ""

/-- Python truthiness of a config value (`if recursive:` / `if ocr:`). -/
def valueTruthy : Value → Bool
  | .vStr s => decide (s ≠ "")
  | .vBool b => b

/-- Exceptions the program can raise. `runtimeError` and the `OSError` family
(`fileNotFound`, `sameFileError`) are what `main`'s handler can catch;
`yamlError` (`yaml.YAMLError`) and `unicodeDecodeError` are neither. -/
inductive Exc
  | runtimeError (msg : String)
  | fileNotFound
  | sameFileError
  | yamlError
  | unicodeDecodeError
deriving DecidableEq

/-- Whether `except (OSError, RuntimeError)` in `main` catches the exception. -/
def excCaughtByMain : Exc → Bool
  | .runtimeError _ => true
  | .fileNotFound => true
  | .sameFileError => true
  | .yamlError => false
  | .unicodeDecodeError => false

/-- Parsed command-line arguments (`argparse` namespace). `none` means the
option was not given; `config` is the raw option string. -/
structure Args where
  inputs : List FPath
  output_dir : Option String
  recursive : Option Bool
  ocr : Option Bool
  config : Option String

/-- The run environment: filesystem, arguments, and oracles for the external
libraries (`yaml.safe_load`, `json.loads`, `find_spec`, `hash`). A parse oracle
returns `.error` for a raised parse exception and `.ok none` for a document
that is `None`/falsy (which `load_config` turns into the empty mapping). -/
structure Env where
  fs : FS
  args : Args
  yamlAvailable : Bool
  parseYaml : String → Except Unit (Option (List (String × Value)))
  parseJson : String → Except Unit (Option (List (String × Value)))
  findSpec : String → FindSpecRes
  hashStr : String → Int

/-- `path.read_text()`: the file's text, `FileNotFoundError` if absent,
`UnicodeDecodeError` if its bytes are not modelled as text. -/
def read_text (fs : FS) (p : FPath) : Except Exc String :=
  match readFile fs p with
  | some (.text s) => .ok s
  | some (.bytes _) => .error .unicodeDecodeError
  | none => .error .fileNotFound

/-- `load_config`: read the file, then parse as YAML when the lowered suffix is
".yaml"/".yml" and as JSON otherwise. `FileNotFoundError` and a missing YAML
library are wrapped into `RuntimeError`, as is a JSON parse error; a YAML parse
error (`yaml.YAMLError`) escapes unwrapped, because the `try` in the YAML branch
only covers the `import`. -/
def load_config (env : Env) (path : FPath) : Except Exc (List (String × Value)) :=
  match read_text env.fs path with
  | .error .fileNotFound => .error (.runtimeError ("Config file not found"))
  | .error e => .error e
  | .ok text =>
    if strLower (pySuffix (nameOf path)) = ".yaml" ∨ strLower (pySuffix (nameOf path)) = ".yml" then
      if env.yamlAvailable then
        match env.parseYaml text with
        | .ok d => .ok (d.getD [])
        | .error _ => .error .yamlError
      else .error (.runtimeError ("PyYAML is not installed; cannot read YAML config."))
    else
      match env.parseJson text with
      | .ok d => .ok (d.getD [])
      | .error _ => .error (.runtimeError ("Invalid JSON config"))

/-- Log lines the program emits (tags only; the exit code never depends on them). -/
inductive LogEntry
  | infoNpu
  | warnCpu
  | errInputNotFound (p : FPath)
  | warnNoPdfFound (p : FPath)
  | warnSkipNonPdf (p : FPath)
  | errConfigLoad
  | errNoInputs
  | infoWrotePdf (p : FPath)
  | infoWroteOcrFor (p : FPath)
deriving DecidableEq

/-- Whether a path's suffix, lowered, is ".pdf". -/
def pdfSuffixOk (p : FPath) : Bool := decide (strLower (pySuffix (nameOf p)) = ".pdf")

/-- The (file, base) pairs a directory input contributes: the globbed entries
that are regular files with a ".pdf" suffix (case-insensitively), paired with
the directory. -/
def dirMatches (fs : FS) (recursive : Bool) (raw : FPath) : List (FPath × FPath) :=
  ((glob fs raw recursive).filter (fun c => isFile fs c && pdfSuffixOk c)).map (fun c => (c, raw))

/-- One iteration of the `collect_pdfs` loop, for a single input path:
the (file, base) pairs it contributes and the log lines it emits (the
`found` flag of the source is equivalent to the match list being nonempty). -/
def collect_one (fs : FS) (recursive : Bool) (raw : FPath) : List (FPath × FPath) × List LogEntry :=
  if pathExists fs raw = false then ([], [.errInputNotFound raw])
  else if isDir fs raw then
    (dirMatches fs recursive raw,
      if dirMatches fs recursive raw = [] then [.warnNoPdfFound raw] else [])
  else if pdfSuffixOk raw = false then ([], [.warnSkipNonPdf raw])
  else ([(raw, raw.dropLast)], [])

/-- `collect_pdfs`: accumulate the contributions of each input, in order. -/
def collect_pdfs (fs : FS) (inputs : List FPath) (recursive : Bool) :
    List (FPath × FPath) × List LogEntry :=
  match inputs with
  | [] => ([], [])
  | raw :: rest =>
    let one := collect_one fs recursive raw
    let more := collect_pdfs fs rest recursive
    (one.1 ++ more.1, one.2 ++ more.2)

/-- `shutil.copy2`: `FileNotFoundError` for a missing source, `SameFileError`
when source and destination are the same path, else write the source's content
(and metadata) at the destination, overwriting any existing file. -/
def copy2 (fs : FS) (src dst : FPath) : Except Exc FS :=
  match readFile fs src with
  | none => .error .fileNotFound
  | some c => if src = dst then .error .sameFileError else .ok (setFile fs dst c)

/-- The HTML placeholder text written beside a converted PDF. -/
def htmlPlaceholder (source : FPath) : String :=
  "<html><body><h1>OCR placeholder</h1><p>Source: " ++ pathStr source ++ "</p></body></html>\n"

/-- The Markdown placeholder text written beside a converted PDF. -/
def mdPlaceholder (source : FPath) : String :=
  "# OCR placeholder\n\nSource: " ++ pathStr source ++ "\n"

/-- One hexadecimal digit, as produced by `json.dumps` control-character escapes. -/
def hexDigit (n : Nat) : Char :=
  if n < 10 then Char.ofNat (48 + n) else Char.ofNat (87 + n)

/-- `json.dumps` escaping of one character (`ensure_ascii=False`). -/
def jsonEscapeChar (c : Char) : String :=
  if c = '"' then "\\\""
  else if c = '\\' then "\\\\"
  else if c = '\n' then "\\n"
  else if c = '\t' then "\\t"
  else if c = '\r' then "\\r"
  else if c = Char.ofNat 8 then "\\b"
  else if c = Char.ofNat 12 then "\\f"
  else if c.toNat < 32 then "\\u00" ++ String.mk [hexDigit (c.toNat / 16), hexDigit (c.toNat % 16)]
  else String.mk [c]

/-- `json.dumps` rendering of a string. -/
def jsonQuote (s : String) : String :=
  "\"" ++ String.join (s.data.map jsonEscapeChar) ++ "\""

/-- `json.dumps({"source": str(source), "status": "placeholder"},
ensure_ascii=False, indent=2)` followed by the newline the code appends. -/
def jsonSidecar (source : FPath) : String :=
  "\x7b\n  " ++ jsonQuote ("source") ++ ": " ++ jsonQuote (pathStr source) ++ ",\n  " ++
    jsonQuote ("status") ++ ": " ++ jsonQuote ("placeholder") ++ "\n\x7d" ++ "\n"

/-- The `<stem>.ocr.pdf` sibling of the converted PDF. -/
def ocrPdfPath (output_pdf : FPath) : FPath :=
  withName output_pdf (pyStem (nameOf output_pdf) ++ ".ocr.pdf")

/-- The filesystem after the `if ocr_pdf.exists(): ocr_pdf.unlink()` step. -/
def ocrUnlinked (fs : FS) (output_pdf : FPath) : FS :=
  if pathExists fs (ocrPdfPath output_pdf) then removeFile fs (ocrPdfPath output_pdf) else fs

/-- `write_ocr_placeholders`: remove any prior `<stem>.ocr.pdf`, copy the
converted PDF there, and write the HTML/Markdown/JSON sidecars. On an internal
exception the filesystem as modified so far is reported alongside it. -/
def write_ocr_placeholders (fs : FS) (output_pdf source_pdf : FPath) : Except (Exc × FS) FS :=
  match copy2 (ocrUnlinked fs output_pdf) output_pdf (ocrPdfPath output_pdf) with
  | .error e => .error (e, ocrUnlinked fs output_pdf)
  | .ok fs2 =>
    .ok (setFile (setFile (setFile fs2
      (withSuffix output_pdf (".html")) (.text (htmlPlaceholder source_pdf)))
      (withSuffix output_pdf (".md")) (.text (mdPlaceholder source_pdf)))
      (withSuffix output_pdf (".json")) (.text (jsonSidecar source_pdf)))

/-- `merge_setting`: the CLI value if set, else the config value for the key,
else the default (`config.get(key, default)` over the first matching key). -/
def merge_setting {α : Type} (cli_value : Option α) (config : List (String × α))
    (key : String) (default : α) : α :=
  match cli_value with
  | some v => v
  | none => ((config.find? (fun kv => kv.1 = key)).map Prod.snd).getD default

/-- `pdf_path.relative_to(base_dir)`, `none` for the raised `ValueError`. -/
def relative_to (p base : FPath) : Option FPath :=
  if base <+: p then some (p.drop base.length) else none

/-- The fallback file name `f"{stem}_{abs(hash(str(path)))}{suffix}"` used when
the relative path cannot be computed. -/
def fallbackName (env : Env) (pdf_path : FPath) : String :=
  pyStem (nameOf pdf_path) ++ "_" ++ Nat.repr (env.hashStr (pathStr pdf_path)).natAbs ++
    pySuffix (nameOf pdf_path)

/-- The destination path of one task: output dir joined with the relative path,
or with the synthesized fallback name. -/
def taskDest (env : Env) (output_dir : FPath) (pdf_path base_dir : FPath) : FPath :=
  match relative_to pdf_path base_dir with
  | some rel => output_dir ++ rel
  | none => output_dir ++ [fallbackName env pdf_path]

/-- All ancestors of a path (including itself and the root). -/
def ancestorsOf : FPath → List FPath
  | [] => [[]]
  | a :: rest => [] :: (ancestorsOf rest).map (fun q => a :: q)

/-- `dir.mkdir(parents=True, exist_ok=True)`. -/
def mkdirParents (fs : FS) (d : FPath) : FS :=
  ⟨fs.files, ancestorsOf d ++ fs.dirs⟩

/-- Mutable state of the `main` loop: the filesystem and the log so far. -/
structure MState where
  fs : FS
  log : List LogEntry
deriving DecidableEq

/-- One iteration of the conversion loop in `main`: compute the destination,
create its parents, copy the PDF, and optionally write the OCR placeholders.
An uncaught exception carries the state at the point it was raised. -/
def processTask (env : Env) (output_dir : FPath) (ocr : Bool) (st : MState)
    (task : FPath × FPath) : Except (Exc × MState) MState :=
  match copy2 (mkdirParents st.fs (taskDest env output_dir task.1 task.2).dropLast)
      task.1 (taskDest env output_dir task.1 task.2) with
  | .error e =>
    .error (e, ⟨mkdirParents st.fs (taskDest env output_dir task.1 task.2).dropLast, st.log⟩)
  | .ok fs2 =>
    if ocr then
      match write_ocr_placeholders fs2 (taskDest env output_dir task.1 task.2) task.1 with
      | .error (e, fs3) =>
        .error (e, ⟨fs3, st.log ++ [LogEntry.infoWrotePdf (taskDest env output_dir task.1 task.2)]⟩)
      | .ok fs3 =>
        .ok ⟨fs3, st.log ++ [LogEntry.infoWrotePdf (taskDest env output_dir task.1 task.2),
          LogEntry.infoWroteOcrFor (taskDest env output_dir task.1 task.2)]⟩
    else .ok ⟨fs2, st.log ++ [LogEntry.infoWrotePdf (taskDest env output_dir task.1 task.2)]⟩

/-- The conversion loop of `main` over the collected tasks, in order. -/
def runLoop (env : Env) (output_dir : FPath) (ocr : Bool) :
    MState → List (FPath × FPath) → Except (Exc × MState) MState
  | st, [] => .ok st
  | st, t :: ts =>
    match processTask env output_dir ocr st t with
    | .error es => .error es
    | .ok st2 => runLoop env output_dir ocr st2 ts

/-- The config mapping `main` works with: empty when `--config` was absent or
empty (falsy), else the result of `load_config`. -/
def loadedConfig (env : Env) : Except Exc (List (String × Value)) :=
  match env.args.config with
  | some s => if s = "" then .ok [] else load_config env (strToPath s)
  | none => .ok []

/-- The successfully loaded config mapping (meaningful when `loadedConfig` is ok). -/
def cfgOrEmpty (env : Env) : List (String × Value) :=
  match loadedConfig env with
  | .ok c => c
  | .error _ => []

/-- Effective output directory: `Path(merge_setting(args.output_dir, config, "output_dir", "output"))`. -/
def effOutputDir (env : Env) (cfg : List (String × Value)) : FPath :=
  strToPath (valueAsStr (merge_setting (env.args.output_dir.map Value.vStr) cfg
    ("output_dir") (.vStr ("output"))))

/-- Effective recursion flag. -/
def effRecursive (env : Env) (cfg : List (String × Value)) : Bool :=
  valueTruthy (merge_setting (env.args.recursive.map Value.vBool) cfg ("recursive") (.vBool false))

/-- Effective OCR flag. -/
def effOcr (env : Env) (cfg : List (String × Value)) : Bool :=
  valueTruthy (merge_setting (env.args.ocr.map Value.vBool) cfg ("ocr") (.vBool false))

/-- The backend log line `main` emits. -/
def backendLogOf (env : Env) : LogEntry :=
  if detect_backend env.findSpec = "NPU" then .infoNpu else .warnCpu

/-- `main` after the config step: merge settings, log the backend, collect the
PDFs, and either report no work (return 1) or run the conversion loop. -/
def mainAfterConfig (env : Env) (cfg : List (String × Value)) :
    Except Exc Nat × FS × List LogEntry :=
  if (collect_pdfs env.fs env.args.inputs (effRecursive env cfg)).1 = [] then
    (.ok 1, env.fs,
      backendLogOf env ::
        ((collect_pdfs env.fs env.args.inputs (effRecursive env cfg)).2 ++ [LogEntry.errNoInputs]))
  else
    match runLoop env (effOutputDir env cfg) (effOcr env cfg)
        ⟨env.fs, backendLogOf env :: (collect_pdfs env.fs env.args.inputs (effRecursive env cfg)).2⟩
        (collect_pdfs env.fs env.args.inputs (effRecursive env cfg)).1 with
    | .ok st => (.ok 0, st.fs, st.log)
    | .error (e, st) => (.error e, st.fs, st.log)

/-- `main`: `.ok code` is a normal return, `.error e` an uncaught exception;
alongside it the final filesystem and log. A caught config-load failure logs
the error and returns 1. -/
def mainRun (env : Env) : Except Exc Nat × FS × List LogEntry :=
  match loadedConfig env with
  | .error e =>
    if excCaughtByMain e then (.ok 1, env.fs, [LogEntry.errConfigLoad])
    else (.error e, env.fs, [])
  | .ok cfg => mainAfterConfig env cfg

/-- The process exit status of `sys.exit(main())`: the returned code, or 1 when
the interpreter dies on an uncaught exception. -/
def processExit (env : Env) : Nat :=
  match (mainRun env).1 with
  | .ok n => n
  | .error _ => 1

/-- Whether an `Except` is an error. -/
def isErr {ε α : Type} : Except ε α → Bool
  | .error _ => true
  | .ok _ => false

/-- The tasks `main` collects, the collection log, and the loop outcome, as
stand-alone views of the corresponding stages of `mainRun`. -/
def tasksOf (env : Env) : List (FPath × FPath) :=
  (collect_pdfs env.fs env.args.inputs (effRecursive env (cfgOrEmpty env))).1

/-- The log lines collection emits. -/
def collectLogOf (env : Env) : List LogEntry :=
  (collect_pdfs env.fs env.args.inputs (effRecursive env (cfgOrEmpty env))).2

/-- The outcome of the conversion loop stage of `mainRun`. -/
def loopResultOf (env : Env) : Except (Exc × MState) MState :=
  runLoop env (effOutputDir env (cfgOrEmpty env)) (effOcr env (cfgOrEmpty env))
    ⟨env.fs, backendLogOf env :: collectLogOf env⟩ (tasksOf env)

/-! ### Supporting lemmas -/

theorem str_ext {a b : String} (h : a.data = b.data) : a = b := by
  cases a; cases b; cases h; rfl

theorem str_append_data (s t : String) : (s ++ t).data = s.data ++ t.data := by
  cases s; cases t; rfl

theorem str_append_cancel_left {s a b : String} (h : s ++ a = s ++ b) : a = b := by
  have h2 : s.data ++ a.data = s.data ++ b.data := by
    rw [← str_append_data, ← str_append_data, h]
  exact str_ext (List.append_cancel_left h2)

theorem lastIdxOf_lt_length {c : Char} :
    ∀ {cs : List Char} {i : Nat}, lastIdxOf c cs = some i → i < cs.length := by
  intro cs
  induction cs with
  | nil => intro i h; simp [lastIdxOf] at h
  | cons a as ih =>
    intro i h
    rw [lastIdxOf] at h
    cases hh : lastIdxOf c as with
    | some j =>
      rw [hh] at h
      cases h
      have := ih hh
      simpa using Nat.succ_lt_succ this
    | none =>
      rw [hh] at h
      by_cases hac : a = c
      · simp [hac] at h
        cases h
        simp
      · simp [hac] at h

theorem lastIdxOf_eq_none_of_not_mem {c : Char} :
    ∀ {cs : List Char}, c ∉ cs → lastIdxOf c cs = none := by
  intro cs
  induction cs with
  | nil => intro _; rfl
  | cons a as ih =>
    intro h
    have hna : a ≠ c := fun he => h (List.mem_cons.mpr (Or.inl he.symm))
    have hnm : c ∉ as := fun hm => h (List.mem_cons_of_mem a hm)
    rw [lastIdxOf, ih hnm]
    simp [hna]

theorem not_mem_of_lastIdxOf_eq_none {c : Char} :
    ∀ {cs : List Char}, lastIdxOf c cs = none → c ∉ cs := by
  intro cs
  induction cs with
  | nil => intro _ hm; simp at hm
  | cons a as ih =>
    intro h hm
    rw [lastIdxOf] at h
    cases hh : lastIdxOf c as with
    | some j => rw [hh] at h; simp at h
    | none =>
      rw [hh] at h
      by_cases hac : a = c
      · rw [if_pos hac] at h; simp at h
      · rcases List.mem_cons.mp hm with h1 | h2
        · exact hac h1.symm
        · exact ih hh h2

theorem lastIdxOf_drop {c : Char} :
    ∀ {cs : List Char} {i : Nat}, lastIdxOf c cs = some i →
      ∃ rest, cs.drop i = c :: rest ∧ c ∉ rest := by
  intro cs
  induction cs with
  | nil => intro i h; simp [lastIdxOf] at h
  | cons a as ih =>
    intro i h
    rw [lastIdxOf] at h
    cases hh : lastIdxOf c as with
    | some j =>
      rw [hh] at h
      cases h
      obtain ⟨rest, hd, hm⟩ := ih hh
      exact ⟨rest, by rw [List.drop_succ_cons]; exact hd, hm⟩
    | none =>
      rw [hh] at h
      by_cases hac : a = c
      · rw [if_pos hac] at h
        injection h with h0
        subst h0
        exact ⟨as, by rw [List.drop_zero, hac], not_mem_of_lastIdxOf_eq_none hh⟩
      · rw [if_neg hac] at h
        exact absurd h (by simp)

theorem lastIdxOf_append_cons {c : Char} {rest : List Char} (hnm : c ∉ rest) :
    ∀ (pre : List Char), lastIdxOf c (pre ++ c :: rest) = some pre.length := by
  intro pre
  induction pre with
  | nil =>
    show lastIdxOf c (c :: rest) = some 0
    rw [lastIdxOf, lastIdxOf_eq_none_of_not_mem hnm]
    simp
  | cons a pre ih =>
    show lastIdxOf c (a :: (pre ++ c :: rest)) = some (pre.length + 1)
    rw [lastIdxOf, ih]

theorem suffixChars_eq_some {cs : List Char} {i : Nat} (h : lastIdxOf '.' cs = some i) :
    suffixChars cs = if 0 < i ∧ i + 1 < cs.length then cs.drop i else [] := by
  rw [suffixChars, h]

theorem suffixChars_eq_none {cs : List Char} (h : lastIdxOf '.' cs = none) :
    suffixChars cs = [] := by
  rw [suffixChars, h]

theorem stemChars_eq_some {cs : List Char} {i : Nat} (h : lastIdxOf '.' cs = some i) :
    stemChars cs = if 0 < i ∧ i + 1 < cs.length then cs.take i else cs := by
  rw [stemChars, h]

theorem stemChars_eq_none {cs : List Char} (h : lastIdxOf '.' cs = none) :
    stemChars cs = cs := by
  rw [stemChars, h]

theorem stemChars_append_suffixChars (cs : List Char) :
    stemChars cs ++ suffixChars cs = cs := by
  cases h : lastIdxOf '.' cs with
  | none => rw [stemChars_eq_none h, suffixChars_eq_none h, List.append_nil]
  | some i =>
    rw [stemChars_eq_some h, suffixChars_eq_some h]
    by_cases hc : 0 < i ∧ i + 1 < cs.length
    · rw [if_pos hc, if_pos hc]
      exact List.take_append_drop i cs
    · rw [if_neg hc, if_neg hc, List.append_nil]

theorem stem_append_suffix (n : String) : pyStem n ++ pySuffix n = n := by
  refine str_ext ?_
  rw [str_append_data]
  show stemChars n.data ++ suffixChars n.data = n.data
  exact stemChars_append_suffixChars n.data

theorem withSuffixName_eq_stem (n ext : String) :
    withSuffixName n ext = pyStem n ++ ext := by
  rw [withSuffixName, pyStem]
  congr 1
  refine str_ext ?_
  show (n.data.take (n.data.length - (suffixChars n.data).length)) = stemChars n.data
  cases h : lastIdxOf '.' n.data with
  | none => rw [suffixChars_eq_none h, stemChars_eq_none h]; simp
  | some i =>
    rw [suffixChars_eq_some h, stemChars_eq_some h]
    by_cases hc : 0 < i ∧ i + 1 < n.data.length
    · rw [if_pos hc, if_pos hc, List.length_drop]
      have hi : i < n.data.length := lastIdxOf_lt_length h
      have h2 : n.data.length - (n.data.length - i) = i := Nat.sub_sub_self (Nat.le_of_lt hi)
      rw [h2]
    · rw [if_neg hc, if_neg hc]
      simp

theorem pySuffix_nonempty_struct {n : String} (h : pySuffix n ≠ "") :
    ∃ rest, (pySuffix n).data = '.' :: rest ∧ '.' ∉ rest ∧ rest ≠ [] := by
  have hd0 : (pySuffix n).data = suffixChars n.data := rfl
  rw [hd0]
  cases hli : lastIdxOf '.' n.data with
  | none =>
    exfalso
    apply h
    apply str_ext
    show suffixChars n.data = ([] : List Char)
    exact suffixChars_eq_none hli
  | some i =>
    by_cases hc : 0 < i ∧ i + 1 < n.data.length
    · have hsc : suffixChars n.data = n.data.drop i := by
        rw [suffixChars_eq_some hli]
        exact if_pos hc
      rw [hsc]
      obtain ⟨rest, hdr, hm⟩ := lastIdxOf_drop hli
      refine ⟨rest, hdr, hm, ?_⟩
      intro hre
      have hlen : (n.data.drop i).length = n.data.length - i := List.length_drop i n.data
      rw [hdr, hre, List.length_cons, List.length_nil] at hlen
      obtain ⟨hc1, hc2⟩ := hc
      omega
    · exfalso
      apply h
      apply str_ext
      show suffixChars n.data = ([] : List Char)
      rw [suffixChars_eq_some hli]
      exact if_neg hc

theorem pySuffix_of_concat {pre rest : List Char}
    (hpre : pre ≠ []) (hrest : rest ≠ []) (hnd : '.' ∉ rest) :
    pySuffix ⟨pre ++ '.' :: rest⟩ = ⟨'.' :: rest⟩ := by
  rw [pySuffix]
  show String.mk (suffixChars (pre ++ '.' :: rest)) = ⟨'.' :: rest⟩
  rw [suffixChars, lastIdxOf_append_cons hnd pre]
  have h0 : 0 < pre.length := List.length_pos.mpr hpre
  have h1 : pre.length + 1 < (pre ++ '.' :: rest).length := by
    rw [List.length_append, List.length_cons]
    have : 0 < rest.length := List.length_pos.mpr hrest
    omega
  simp only [h0, h1, and_true, if_true, true_and]
  rw [List.drop_left]

/-! ### Filesystem read/write lemmas -/

theorem find?_setFileList (l : List (FPath × Content)) (p : FPath) (c : Content) (q : FPath) :
    ((setFileList l p c).find? (fun e => e.1 = q)).map Prod.snd =
      if q = p then some c else (l.find? (fun e => e.1 = q)).map Prod.snd := by
  induction l with
  | nil =>
    rw [setFileList]
    by_cases h : q = p
    · subst h
      rw [List.find?_cons_of_pos _ (by simp), if_pos rfl]
      rfl
    · rw [List.find?_cons_of_neg _ (by simp only [decide_eq_true_eq]; exact Ne.symm h),
        if_neg h]
  | cons e rest ih =>
    rw [setFileList]
    by_cases hep : e.1 = p
    · rw [if_pos hep]
      by_cases hq : q = p
      · subst hq
        rw [List.find?_cons_of_pos _ (by simp), if_pos rfl]
        rfl
      · have heq : ¬ (e.1 = q) := fun he => hq ((he ▸ hep : q = p))
        rw [List.find?_cons_of_neg _ (by simp only [decide_eq_true_eq]; exact Ne.symm hq),
          if_neg hq, List.find?_cons_of_neg _ (by simp only [decide_eq_true_eq]; exact heq)]
    · rw [if_neg hep]
      by_cases heq : e.1 = q
      · have hq : ¬ (q = p) := fun hh => hep (by rw [heq, hh])
        rw [List.find?_cons_of_pos _ (by simp [heq]), if_neg hq,
          List.find?_cons_of_pos _ (by simp [heq])]
      · rw [List.find?_cons_of_neg _ (by simp [heq]), ih,
          List.find?_cons_of_neg _ (by simp [heq])]

theorem readFile_setFile (fs : FS) (p : FPath) (c : Content) (q : FPath) :
    readFile (setFile fs p c) q = if q = p then some c else readFile fs q :=
  find?_setFileList fs.files p c q

theorem find?_filter_ne (l : List (FPath × Content)) (p q : FPath) :
    ((l.filter (fun e => e.1 ≠ p)).find? (fun e => e.1 = q)) =
      if q = p then none else l.find? (fun e => e.1 = q) := by
  induction l with
  | nil => by_cases h : q = p <;> simp [h]
  | cons e rest ih =>
    by_cases hep : e.1 = p
    · have hfil : (e :: rest).filter (fun e => e.1 ≠ p) = rest.filter (fun e => e.1 ≠ p) := by
        simp [List.filter_cons, hep]
      rw [hfil, ih]
      by_cases hq : q = p
      · rw [if_pos hq, if_pos hq]
      · have heq : ¬ (e.1 = q) := fun he => hq ((he ▸ hep : q = p))
        rw [if_neg hq, if_neg hq, List.find?_cons_of_neg _ (by simp [heq])]
    · have hfil : (e :: rest).filter (fun e => e.1 ≠ p) = e :: rest.filter (fun e => e.1 ≠ p) := by
        simp [List.filter_cons, hep]
      rw [hfil]
      by_cases heq : e.1 = q
      · have hq : ¬ (q = p) := fun hh => hep (by rw [heq, hh])
        rw [List.find?_cons_of_pos _ (by simp [heq]), if_neg hq,
          List.find?_cons_of_pos _ (by simp [heq])]
      · rw [List.find?_cons_of_neg _ (by simp [heq]), ih,
          List.find?_cons_of_neg _ (by simp [heq])]

theorem readFile_removeFile (fs : FS) (p : FPath) (q : FPath) :
    readFile (removeFile fs p) q = if q = p then none else readFile fs q := by
  show ((fs.files.filter (fun e => e.1 ≠ p)).find? (fun e => e.1 = q)).map Prod.snd = _
  rw [find?_filter_ne]
  by_cases h : q = p <;> simp [h, readFile]

theorem readFile_mkdirParents (fs : FS) (d : FPath) (p : FPath) :
    readFile (mkdirParents fs d) p = readFile fs p := rfl

theorem isFile_mem_mapFst {fs : FS} {p : FPath} (h : isFile fs p = true) :
    p ∈ fs.files.map Prod.fst := by
  rw [isFile, readFile] at h
  cases hf : fs.files.find? (fun e => e.1 = p) with
  | none => rw [hf] at h; simp at h
  | some e =>
    have hmem := List.mem_of_find?_eq_some hf
    have hpe := List.find?_some hf
    simp only [decide_eq_true_eq] at hpe
    exact List.mem_map.mpr ⟨e, hmem, hpe⟩

theorem withName_inj {p : FPath} {a b : String} (h : withName p a = withName p b) : a = b := by
  have h2 := congrArg (fun l => l.getLast?) h
  simpa [withName, List.getLast?_concat] using h2

theorem nameOf_withName (p : FPath) (m : String) : nameOf (withName p m) = m := by
  simp [nameOf, withName, List.getLast?_concat]

theorem self_ne_withName {p : FPath} {m : String} (h : nameOf p ≠ m) : p ≠ withName p m := by
  intro he
  exact h (by rw [he, nameOf_withName])

/-! ### Collection lemmas -/

theorem mem_dirMatches {fs : FS} {r : Bool} {raw : FPath} {t : FPath × FPath} :
    t ∈ dirMatches fs r raw ↔
      (t.2 = raw ∧ isFile fs t.1 = true ∧ pdfSuffixOk t.1 = true ∧
        globPred raw r t.1 = true) := by
  constructor
  · intro h
    obtain ⟨c, hc, hcb⟩ := List.mem_map.mp h
    obtain ⟨hcg, hpred⟩ := List.mem_filter.mp hc
    rw [Bool.and_eq_true] at hpred
    obtain ⟨hfile, hsuf⟩ := hpred
    obtain ⟨t1, t2⟩ := t
    obtain ⟨he1, he2⟩ := Prod.mk.injEq .. |>.mp hcb
    subst he1
    subst he2
    exact ⟨rfl, hfile, hsuf, (List.mem_filter.mp hcg).2⟩
  · rintro ⟨hb, hfile, hsuf, hpred⟩
    obtain ⟨t1, t2⟩ := t
    cases hb
    refine List.mem_map.mpr ⟨t1, ?_, rfl⟩
    refine List.mem_filter.mpr ⟨?_, by rw [hfile, hsuf]; rfl⟩
    exact List.mem_filter.mpr
      ⟨List.mem_append.mpr (Or.inl (isFile_mem_mapFst hfile)), hpred⟩

theorem globPred_iff (dir : FPath) (r : Bool) (p : FPath) :
    globPred dir r p = true ↔
      (dir <+: p ∧ (if r then dir.length < p.length else p.length = dir.length + 1)) := by
  rw [globPred]
  cases r <;> simp

theorem mem_collect_sources_pdfSuffix {fs : FS} {r : Bool} {s b : FPath} :
    ∀ {inputs : List FPath}, (s, b) ∈ (collect_pdfs fs inputs r).1 → pdfSuffixOk s = true := by
  intro inputs
  induction inputs with
  | nil => intro h; exact absurd h (by simp [collect_pdfs])
  | cons raw rest ih =>
    intro h
    rw [collect_pdfs] at h
    rcases List.mem_append.mp h with h1 | h2
    · rw [collect_one] at h1
      by_cases hex : pathExists fs raw = false
      · rw [if_pos hex] at h1
        exact absurd h1 (by simp)
      · rw [if_neg hex] at h1
        by_cases hdir : isDir fs raw = true
        · rw [if_pos hdir] at h1
          exact (mem_dirMatches.mp h1).2.2.1
        · rw [if_neg hdir] at h1
          cases hpdf : pdfSuffixOk raw with
          | false => rw [if_pos hpdf] at h1; exact absurd h1 (by simp)
          | true =>
            rw [if_neg (by rw [hpdf]; exact fun hc => Bool.noConfusion hc)] at h1
            have he : (s, b) = (raw, raw.dropLast) := by simpa using h1
            have hs : s = raw := congrArg Prod.fst he
            rw [hs, hpdf]
    · exact ih h2

theorem collect_pdfs_append (fs : FS) (r : Bool) (xs ys : List FPath) :
    (collect_pdfs fs (xs ++ ys) r).1 = (collect_pdfs fs xs r).1 ++ (collect_pdfs fs ys r).1 := by
  induction xs with
  | nil => simp [collect_pdfs]
  | cons raw rest ih =>
    rw [List.cons_append, collect_pdfs, collect_pdfs]
    show (collect_one fs r raw).1 ++ (collect_pdfs fs (rest ++ ys) r).1 = _
    rw [ih, List.append_assoc]

/-- Which log entries record a written PDF copy ("Wrote PDF: ..."). -/
def isWroteLog : LogEntry → Bool
  | .infoWrotePdf _ => true
  | _ => false

/-- Number of PDF copies recorded in a log. -/
def countWrites (log : List LogEntry) : Nat := (log.filter isWroteLog).length

theorem countWrites_append (l1 l2 : List LogEntry) :
    countWrites (l1 ++ l2) = countWrites l1 + countWrites l2 := by
  simp [countWrites, List.filter_append]

theorem processTask_ok_countWrites {env : Env} {od : FPath} {ocr : Bool} {st : MState}
    {t : FPath × FPath} {st2 : MState} (h : processTask env od ocr st t = .ok st2) :
    countWrites st2.log = countWrites st.log + 1 := by
  rw [processTask] at h
  split at h
  · exact Except.noConfusion h
  · split at h
    · split at h
      · exact Except.noConfusion h
      · injection h with h2
        rw [← h2, countWrites_append]
        simp [countWrites, isWroteLog]
    · injection h with h2
      rw [← h2, countWrites_append]
      simp [countWrites, isWroteLog]

theorem runLoop_ok_countWrites {env : Env} {od : FPath} {ocr : Bool} :
    ∀ {ts : List (FPath × FPath)} {st st' : MState},
      runLoop env od ocr st ts = .ok st' →
      countWrites st'.log = countWrites st.log + ts.length := by
  intro ts
  induction ts with
  | nil =>
    intro st st' h
    rw [runLoop] at h
    injection h with h2
    rw [← h2]
    simp
  | cons t ts ih =>
    intro st st' h
    rw [runLoop] at h
    cases hp : processTask env od ocr st t with
    | error es => rw [hp] at h; exact Except.noConfusion h
    | ok st2 =>
      rw [hp] at h
      have h1 := processTask_ok_countWrites hp
      have h2 := ih h
      rw [h2, h1, List.length_cons]
      omega

/-! ### Claim theorems -/

/-- Claim C3: `merge_setting` is a pure total function; for every explicit
value, config mapping, key, and default, it returns the explicit value if it is
set, else the config mapping's value for the key if the key is present, else
the default. -/
theorem merge_setting_precedence {α : Type} (cli_value : Option α)
    (config : List (String × α)) (key : String) (default : α) :
    (∀ v, cli_value = some v → merge_setting cli_value config key default = v) ∧
    (cli_value = none →
      ∀ v, (config.find? (fun kv => kv.1 = key)).map Prod.snd = some v →
        merge_setting cli_value config key default = v) ∧
    (cli_value = none → (config.find? (fun kv => kv.1 = key)).map Prod.snd = none →
      merge_setting cli_value config key default = default) := by
  refine ⟨?_, ?_, ?_⟩
  · intro v hv
    subst hv
    rfl
  · intro hn v hv
    subst hn
    show ((config.find? (fun kv => kv.1 = key)).map Prod.snd).getD default = v
    rw [hv]
    rfl
  · intro hn hv
    subst hn
    show ((config.find? (fun kv => kv.1 = key)).map Prod.snd).getD default = default
    rw [hv]
    rfl

/-- Witness for C3 at the three concrete precedence situations. -/
theorem merge_setting_precedence_witness :
    merge_setting (some ("cli")) [("output_dir", "cfg")] ("output_dir") ("dfl") = "cli" ∧
    merge_setting (none : Option String) [("output_dir", "cfg")] ("output_dir") ("dfl") = "cfg" ∧
    merge_setting (none : Option String) ([] : List (String × String)) ("output_dir") ("dfl") = "dfl" :=
  ⟨(merge_setting_precedence (some ("cli")) [("output_dir", "cfg")] ("output_dir") ("dfl")).1 _ rfl,
   (merge_setting_precedence (none : Option String) [("output_dir", "cfg")] ("output_dir") ("dfl")).2.1
     rfl _ (by decide),
   (merge_setting_precedence (none : Option String) ([] : List (String × String)) ("output_dir")
     ("dfl")).2.2 rfl (by decide)⟩

/-- Claim C7: the backend detector is total and returns "NPU" exactly when one
of the two probed module names resolves (a raised `ModuleNotFoundError` counts
as not found), and "CPU" otherwise; the result is always one of exactly these
two labels. -/
theorem detect_backend_total (findSpec : String → FindSpecRes) :
    (detect_backend findSpec = "NPU" ∨ detect_backend findSpec = "CPU") ∧
    (detect_backend findSpec = "NPU" ↔
      (specResolvable (findSpec ("openvino.runtime")) = true ∨
        specResolvable (findSpec ("openvino")) = true)) := by
  rw [detect_backend]
  by_cases h1 : specResolvable (findSpec ("openvino.runtime")) = true
  · rw [if_pos h1]
    exact ⟨Or.inl rfl, by simp [h1]⟩
  · rw [if_neg h1]
    by_cases h2 : specResolvable (findSpec ("openvino")) = true
    · rw [if_pos h2]
      exact ⟨Or.inl rfl, by simp [h2]⟩
    · rw [if_neg h2]
      refine ⟨Or.inr rfl, ?_⟩
      constructor
      · intro h
        exact absurd h (by decide)
      · intro h
        rcases h with h | h
        · exact absurd h h1
        · exact absurd h h2

/-- Witness for C7: with every probe raising `ModuleNotFoundError`, the
detector still returns, with the fallback label. -/
theorem detect_backend_total_witness :
    detect_backend (fun _ => FindSpecRes.raisesModuleNotFound) = "CPU" := by
  rcases (detect_backend_total (fun _ => FindSpecRes.raisesModuleNotFound)).1 with h | h
  · exact absurd ((detect_backend_total (fun _ => FindSpecRes.raisesModuleNotFound)).2.mp h)
      (by decide)
  · exact h

/-- Claim C10: a file whose entire name is ".pdf" is never collected — through
any input (direct file argument or directory entry) — because its parsed
extension is empty rather than ".pdf". -/
theorem bare_dotfile_rejected (fs : FS) (inputs : List FPath) (r : Bool) (s b : FPath)
    (hname : nameOf s = ".pdf") : (s, b) ∉ (collect_pdfs fs inputs r).1 := by
  intro hmem
  have h := mem_collect_sources_pdfSuffix hmem
  rw [pdfSuffixOk, hname] at h
  exact absurd h (by decide)

/-- The filesystem for the C10 witness: a bare ".pdf" file at the top level and
one inside a directory. -/
def fsDot : FS := ⟨[([".pdf"], .bytes [1]), (["d", ".pdf"], .bytes [2])], [["d"], []]⟩

/-- Witness for C10: ".pdf" is rejected both as a direct file argument and as a
directory entry. -/
theorem bare_dotfile_rejected_witness :
    ([".pdf"], ([] : FPath)) ∉ (collect_pdfs fsDot [[".pdf"]] false).1 ∧
    (["d", ".pdf"], ["d"]) ∉ (collect_pdfs fsDot [["d"]] true).1 :=
  ⟨bare_dotfile_rejected fsDot [[".pdf"]] false [".pdf"] [] rfl,
   bare_dotfile_rejected fsDot [["d"]] true ["d", ".pdf"] ["d"] rfl⟩

/-- Claim C2: for a directory input, the collected tasks are exactly the
regular files with a case-insensitively ".pdf" extension paired with the
directory as base — the immediate children when non-recursive, the strict
descendants at any depth when recursive. -/
theorem collect_dir_members (fs : FS) (raw : FPath) (r : Bool)
    (hd : isDir fs raw = true) (t : FPath × FPath) :
    t ∈ (collect_one fs r raw).1 ↔
      (t.2 = raw ∧ isFile fs t.1 = true ∧ strLower (pySuffix (nameOf t.1)) = ".pdf" ∧
        raw <+: t.1 ∧
        (if r then raw.length < t.1.length else t.1.length = raw.length + 1)) := by
  have hex : pathExists fs raw = true := by
    rw [pathExists, hd, Bool.or_true]
  rw [collect_one, if_neg (by rw [hex]; exact fun hc => Bool.noConfusion hc), if_pos hd]
  show t ∈ dirMatches fs r raw ↔ _
  rw [mem_dirMatches]
  simp only [pdfSuffixOk, decide_eq_true_eq, globPred_iff, and_assoc]

/-- The filesystem for the C2 witness: a directory `d` with an uppercase-
extension PDF, a nested PDF, and a text file. -/
def fsDirEx : FS :=
  ⟨[(["d", "a.PDF"], .bytes [1]), (["d", "sub", "b.pdf"], .bytes [2]),
    (["d", "c.txt"], .bytes [3])], [["d"], ["d", "sub"], []]⟩

/-- Witness for C2: `a.PDF` is accepted non-recursively, `c.txt` is rejected,
the nested `b.pdf` is found only recursively. -/
theorem collect_dir_members_witness :
    (["d", "a.PDF"], ["d"]) ∈ (collect_one fsDirEx false ["d"]).1 ∧
    (["d", "c.txt"], ["d"]) ∉ (collect_one fsDirEx false ["d"]).1 ∧
    (["d", "sub", "b.pdf"], ["d"]) ∈ (collect_one fsDirEx true ["d"]).1 ∧
    (["d", "sub", "b.pdf"], ["d"]) ∉ (collect_one fsDirEx false ["d"]).1 := by
  refine ⟨?_, ?_, ?_, ?_⟩
  · exact (collect_dir_members fsDirEx ["d"] false rfl (["d", "a.PDF"], ["d"])).mpr (by decide)
  · intro h
    have h2 := (collect_dir_members fsDirEx ["d"] false rfl (["d", "c.txt"], ["d"])).mp h
    exact absurd h2 (by decide)
  · exact (collect_dir_members fsDirEx ["d"] true rfl (["d", "sub", "b.pdf"], ["d"])).mpr (by decide)
  · intro h
    have h2 := (collect_dir_members fsDirEx ["d"] false rfl (["d", "sub", "b.pdf"], ["d"])).mp h
    exact absurd h2 (by decide)

/-- Claim C9: collection performs no deduplication — the tasks of a run are the
concatenation of each input's tasks, so a file reachable through several inputs
appears once per occurrence — and a successful conversion loop performs exactly
one copy (one "Wrote PDF" log line) per collected task. -/
theorem collect_no_dedup_and_copy_per_occurrence (fs : FS) (r : Bool) (xs ys : List FPath)
    (env : Env) (od : FPath) (ocr : Bool) (st st' : MState) (ts : List (FPath × FPath)) :
    ((collect_pdfs fs (xs ++ ys) r).1 = (collect_pdfs fs xs r).1 ++ (collect_pdfs fs ys r).1) ∧
    (runLoop env od ocr st ts = .ok st' →
      countWrites st'.log = countWrites st.log + ts.length) :=
  ⟨collect_pdfs_append fs r xs ys, fun h => runLoop_ok_countWrites h⟩

/-- The filesystem and environment for the C9 witness: `docs/a.pdf` is named
both directly and through its directory. -/
def fsDup : FS := ⟨[(["docs", "a.pdf"], .bytes [7])], [["docs"], []]⟩

/-- Environment for the C9 witness. -/
def envDup : Env :=
  { fs := fsDup
    args := { inputs := [["docs", "a.pdf"], ["docs"]], output_dir := some ("out"),
              recursive := none, ocr := none, config := none }
    yamlAvailable := true
    parseYaml := fun _ => .ok none
    parseJson := fun _ => .ok none
    findSpec := fun _ => .absent
    hashStr := fun _ => 0 }

/-- The duplicated task list of the C9 witness run. -/
def dupTasks : List (FPath × FPath) := (collect_pdfs fsDup [["docs", "a.pdf"], ["docs"]] false).1

/-- The state after the C9 witness conversion loop. -/
def dupFinal : MState :=
  match runLoop envDup ["out"] false ⟨fsDup, []⟩ dupTasks with
  | .ok s => s
  | .error e => e.2

/-- Witness for C9: the same file collected twice through two inputs, and the
loop copying it once per occurrence. -/
theorem collect_no_dedup_witness :
    ((collect_pdfs fsDup ([["docs", "a.pdf"]] ++ [["docs"]]) false).1 =
      (collect_pdfs fsDup [["docs", "a.pdf"]] false).1 ++
        (collect_pdfs fsDup [["docs"]] false).1) ∧
    dupTasks = [(["docs", "a.pdf"], ["docs"]), (["docs", "a.pdf"], ["docs"])] ∧
    countWrites dupFinal.log = countWrites ([] : List LogEntry) + 2 := by
  have h := collect_no_dedup_and_copy_per_occurrence fsDup false [["docs", "a.pdf"]] [["docs"]]
    envDup ["out"] false ⟨fsDup, []⟩ dupFinal dupTasks
  refine ⟨h.1, by decide, ?_⟩
  have h2 := h.2 (by decide)
  have h3 : dupTasks.length = 2 := by decide
  rw [h3] at h2
  exact h2

/-! ### Artifact-path distinctness and converter lemmas -/

theorem name_ne_stem_append {n ext : String} (hsuf : strLower (pySuffix n) = ".pdf")
    (hne : strLower ext ≠ ".pdf") : n ≠ pyStem n ++ ext := by
  intro he
  have h2 : pyStem n ++ pySuffix n = pyStem n ++ ext := by
    rw [stem_append_suffix]
    exact he
  have h3 := str_append_cancel_left h2
  exact hne (h3 ▸ hsuf)

theorem out_ne_artifact {out : FPath} {ext : String}
    (hsuf : strLower (pySuffix (nameOf out)) = ".pdf") (hne : strLower ext ≠ ".pdf") :
    out ≠ withName out (pyStem (nameOf out) ++ ext) := by
  intro he
  have h2 := congrArg nameOf he
  rw [nameOf_withName] at h2
  exact (name_ne_stem_append hsuf hne) h2

theorem artifact_ne_artifact {out : FPath} {e1 e2 : String} (hne : e1 ≠ e2) :
    withName out (pyStem (nameOf out) ++ e1) ≠ withName out (pyStem (nameOf out) ++ e2) :=
  fun he => hne (str_append_cancel_left (withName_inj he))

theorem withSuffix_as_withName (out : FPath) (ext : String) :
    withSuffix out ext = withName out (pyStem (nameOf out) ++ ext) := by
  rw [withSuffix, withSuffixName_eq_stem]

theorem copy2_ok_elim {fs : FS} {src dst : FPath} {fs2 : FS}
    (h : copy2 fs src dst = .ok fs2) :
    ∃ c, readFile fs src = some c ∧ ¬ (src = dst) ∧ fs2 = setFile fs dst c := by
  rw [copy2] at h
  split at h
  · exact Except.noConfusion h
  · rename_i c hr
    split at h
    · exact Except.noConfusion h
    · rename_i hne
      injection h with h2
      exact ⟨c, hr, hne, h2.symm⟩

theorem write_ocr_ok_frame {fs : FS} {out src : FPath} {fs' : FS}
    (h : write_ocr_placeholders fs out src = .ok fs') {p : FPath}
    (h1 : p ≠ ocrPdfPath out) (h2 : p ≠ withSuffix out (".html"))
    (h3 : p ≠ withSuffix out (".md")) (h4 : p ≠ withSuffix out (".json")) :
    readFile fs' p = readFile fs p := by
  rw [write_ocr_placeholders] at h
  split at h
  · exact Except.noConfusion h
  · rename_i fs2 hc
    injection h with h5
    rw [← h5, readFile_setFile, if_neg h4, readFile_setFile, if_neg h3,
      readFile_setFile, if_neg h2]
    obtain ⟨c, hr, hne, rfl⟩ := copy2_ok_elim hc
    rw [readFile_setFile, if_neg h1, ocrUnlinked]
    split
    · rw [readFile_removeFile, if_neg h1]
    · rfl

theorem fallbackName_suffix (env : Env) (pdf : FPath)
    (h : pySuffix (nameOf pdf) ≠ "") :
    pySuffix (fallbackName env pdf) = pySuffix (nameOf pdf) := by
  obtain ⟨rest, hd, hnm, hne⟩ := pySuffix_nonempty_struct h
  have hdataA :
      ((pyStem (nameOf pdf) ++ "_" ++ Nat.repr (env.hashStr (pathStr pdf)).natAbs) : String).data
        ≠ [] := by
    rw [str_append_data, str_append_data]
    intro hc
    have h2 := List.append_eq_nil.mp hc
    have h3 := List.append_eq_nil.mp h2.1
    exact absurd h3.2 (by decide)
  have hfb : fallbackName env pdf =
      ⟨((pyStem (nameOf pdf) ++ "_" ++ Nat.repr (env.hashStr (pathStr pdf)).natAbs) :
        String).data ++ '.' :: rest⟩ := by
    rw [fallbackName]
    apply str_ext
    rw [str_append_data, hd]
  rw [hfb, pySuffix_of_concat hdataA hne hnm]
  exact (str_ext hd).symm

/-! ### Claims C5, C6, C8 -/

/-- Claim C5: with OCR requested, exactly four artifacts are written beside the
plain copy — `<stem>.ocr.pdf` (a byte copy of the converted PDF, replacing any
prior file of that name), `<stem>.html`, `<stem>.md`, and `<stem>.json`, the
latter holding the serialized object with the source path and the
"placeholder" status — and nothing else changes. -/
theorem write_ocr_placeholders_spec (fs : FS) (out src : FPath) (c : Content)
    (hread : readFile fs out = some c)
    (hsuf : strLower (pySuffix (nameOf out)) = ".pdf") :
    ∃ fs', write_ocr_placeholders fs out src = .ok fs' ∧
      readFile fs' (ocrPdfPath out) = some c ∧
      readFile fs' (withSuffix out (".html")) = some (.text (htmlPlaceholder src)) ∧
      readFile fs' (withSuffix out (".md")) = some (.text (mdPlaceholder src)) ∧
      readFile fs' (withSuffix out (".json")) = some (.text (jsonSidecar src)) ∧
      ocrPdfPath out = withName out (pyStem (nameOf out) ++ ".ocr.pdf") ∧
      withSuffix out (".html") = withName out (pyStem (nameOf out) ++ ".html") ∧
      withSuffix out (".md") = withName out (pyStem (nameOf out) ++ ".md") ∧
      withSuffix out (".json") = withName out (pyStem (nameOf out) ++ ".json") ∧
      (out ≠ ocrPdfPath out ∧ out ≠ withSuffix out (".html") ∧
        out ≠ withSuffix out (".md") ∧ out ≠ withSuffix out (".json")) ∧
      (ocrPdfPath out ≠ withSuffix out (".html") ∧
        ocrPdfPath out ≠ withSuffix out (".md") ∧
        ocrPdfPath out ≠ withSuffix out (".json") ∧
        withSuffix out (".html") ≠ withSuffix out (".md") ∧
        withSuffix out (".html") ≠ withSuffix out (".json") ∧
        withSuffix out (".md") ≠ withSuffix out (".json")) ∧
      (∀ p, p ≠ ocrPdfPath out → p ≠ withSuffix out (".html") →
        p ≠ withSuffix out (".md") → p ≠ withSuffix out (".json") →
        readFile fs' p = readFile fs p) := by
  have hhtml := withSuffix_as_withName out (".html")
  have hmd := withSuffix_as_withName out (".md")
  have hjson := withSuffix_as_withName out (".json")
  have hocrw : ocrPdfPath out = withName out (pyStem (nameOf out) ++ ".ocr.pdf") := rfl
  have hoo : out ≠ ocrPdfPath out := by
    rw [hocrw]
    exact out_ne_artifact hsuf (by decide)
  have hoh : out ≠ withSuffix out (".html") := by
    rw [hhtml]
    exact out_ne_artifact hsuf (by decide)
  have hom : out ≠ withSuffix out (".md") := by
    rw [hmd]
    exact out_ne_artifact hsuf (by decide)
  have hoj : out ≠ withSuffix out (".json") := by
    rw [hjson]
    exact out_ne_artifact hsuf (by decide)
  have haoh : ocrPdfPath out ≠ withSuffix out (".html") := by
    rw [hocrw, hhtml]
    exact artifact_ne_artifact (by decide)
  have haom : ocrPdfPath out ≠ withSuffix out (".md") := by
    rw [hocrw, hmd]
    exact artifact_ne_artifact (by decide)
  have haoj : ocrPdfPath out ≠ withSuffix out (".json") := by
    rw [hocrw, hjson]
    exact artifact_ne_artifact (by decide)
  have hahm : withSuffix out (".html") ≠ withSuffix out (".md") := by
    rw [hhtml, hmd]
    exact artifact_ne_artifact (by decide)
  have hahj : withSuffix out (".html") ≠ withSuffix out (".json") := by
    rw [hhtml, hjson]
    exact artifact_ne_artifact (by decide)
  have hamj : withSuffix out (".md") ≠ withSuffix out (".json") := by
    rw [hmd, hjson]
    exact artifact_ne_artifact (by decide)
  have hro : readFile (ocrUnlinked fs out) out = some c := by
    rw [ocrUnlinked]
    split
    · rw [readFile_removeFile, if_neg hoo]
      exact hread
    · exact hread
  have hc : copy2 (ocrUnlinked fs out) out (ocrPdfPath out) =
      .ok (setFile (ocrUnlinked fs out) (ocrPdfPath out) c) := by
    rw [copy2, hro]
    show (if out = ocrPdfPath out then Except.error Exc.sameFileError else _) = _
    rw [if_neg hoo]
  refine ⟨setFile (setFile (setFile (setFile (ocrUnlinked fs out) (ocrPdfPath out) c)
    (withSuffix out (".html")) (.text (htmlPlaceholder src)))
    (withSuffix out (".md")) (.text (mdPlaceholder src)))
    (withSuffix out (".json")) (.text (jsonSidecar src)), ?_, ?_, ?_, ?_, ?_,
    hocrw, hhtml, hmd, hjson, ⟨hoo, hoh, hom, hoj⟩, ⟨haoh, haom, haoj, hahm, hahj, hamj⟩, ?_⟩
  · rw [write_ocr_placeholders, hc]
  · rw [readFile_setFile, if_neg haoj, readFile_setFile, if_neg haom,
      readFile_setFile, if_neg haoh, readFile_setFile, if_pos rfl]
  · rw [readFile_setFile, if_neg hahj, readFile_setFile, if_neg hahm,
      readFile_setFile, if_pos rfl]
  · rw [readFile_setFile, if_neg hamj, readFile_setFile, if_pos rfl]
  · rw [readFile_setFile, if_pos rfl]
  · intro p h1 h2 h3 h4
    rw [readFile_setFile, if_neg h4, readFile_setFile, if_neg h3,
      readFile_setFile, if_neg h2, readFile_setFile, if_neg h1, ocrUnlinked]
    split
    · rw [readFile_removeFile, if_neg h1]
    · rfl

/-- The filesystem for the C5 witness. -/
def fsOcrW : FS := ⟨[(["out", "a.pdf"], .bytes [1]), (["docs", "a.pdf"], .bytes [1])], [["out"], []]⟩

/-- Witness for C5 on a concrete converted PDF. -/
theorem write_ocr_placeholders_spec_witness :
    ∃ fs', write_ocr_placeholders fsOcrW ["out", "a.pdf"] ["docs", "a.pdf"] = .ok fs' ∧
      readFile fs' (ocrPdfPath ["out", "a.pdf"]) = some (.bytes [1]) ∧
      readFile fs' (withSuffix ["out", "a.pdf"] (".json")) =
        some (.text (jsonSidecar ["docs", "a.pdf"])) := by
  obtain ⟨fs', hw, hocr, _, _, hjson, _⟩ := write_ocr_placeholders_spec fsOcrW ["out", "a.pdf"]
    ["docs", "a.pdf"] (.bytes [1]) (by decide) (by decide)
  exact ⟨fs', hw, hocr, hjson⟩

/-- Claim C6: when the conversion step for a task succeeds, the destination
file's content equals the source file's content (whatever was previously at
the destination is overwritten). -/
theorem converter_copy_preserves_bytes (env : Env) (od : FPath) (ocr : Bool)
    (st st2 : MState) (task : FPath × FPath)
    (hok : processTask env od ocr st task = .ok st2)
    (hsuf : strLower (pySuffix (nameOf (taskDest env od task.1 task.2))) = ".pdf") :
    readFile st2.fs (taskDest env od task.1 task.2) = readFile st.fs task.1 := by
  rw [processTask] at hok
  split at hok
  · exact Except.noConfusion hok
  · rename_i fs2 hc
    obtain ⟨c, hr, hne, rfl⟩ := copy2_ok_elim hc
    have hsrc : readFile st.fs task.1 = some c := hr
    split at hok
    · split at hok
      · exact Except.noConfusion hok
      · rename_i fs3 hw
        injection hok with h2
        rw [← h2]
        show readFile fs3 (taskDest env od task.1 task.2) = _
        rw [write_ocr_ok_frame hw
          (out_ne_artifact hsuf (by decide))
          (by rw [withSuffix_as_withName]; exact out_ne_artifact hsuf (by decide))
          (by rw [withSuffix_as_withName]; exact out_ne_artifact hsuf (by decide))
          (by rw [withSuffix_as_withName]; exact out_ne_artifact hsuf (by decide))]
        rw [readFile_setFile, if_pos rfl, hsrc]
    · injection hok with h2
      rw [← h2]
      show readFile (setFile (mkdirParents st.fs (taskDest env od task.1 task.2).dropLast)
        (taskDest env od task.1 task.2) c) (taskDest env od task.1 task.2) = _
      rw [readFile_setFile, if_pos rfl, hsrc]

/-- The environment for the C6 witness. -/
def envCopyW : Env :=
  { fs := ⟨[(["docs", "a.pdf"], .bytes [3, 4]), (["out", "a.pdf"], .bytes [9])], [["docs"], ["out"], []]⟩
    args := { inputs := [["docs"]], output_dir := some ("out"), recursive := none,
              ocr := some true, config := none }
    yamlAvailable := true
    parseYaml := fun _ => .ok none
    parseJson := fun _ => .ok none
    findSpec := fun _ => .absent
    hashStr := fun _ => 0 }

/-- The state after the C6 witness conversion step (OCR enabled). -/
def copyWFinal : MState :=
  match processTask envCopyW ["out"] true ⟨envCopyW.fs, []⟩ (["docs", "a.pdf"], ["docs"]) with
  | .ok s => s
  | .error e => e.2

/-- Witness for C6: the destination holds the source's bytes after the step,
overwriting the stale file previously there. -/
theorem converter_copy_preserves_bytes_witness :
    readFile copyWFinal.fs (taskDest envCopyW ["out"] ["docs", "a.pdf"] ["docs"]) =
      readFile envCopyW.fs ["docs", "a.pdf"] :=
  converter_copy_preserves_bytes envCopyW ["out"] true ⟨envCopyW.fs, []⟩ copyWFinal
    (["docs", "a.pdf"], ["docs"]) (by decide) (by decide)

/-- Claim C8: when the source cannot be made relative to its base, the
destination is the output directory joined with the synthesized name
`<stem>_<abs(hash(str(source)))><suffix>`, and the source's extension is
preserved in the destination's name. -/
theorem fallback_dest_name (env : Env) (od pdf base : FPath)
    (hrel : relative_to pdf base = none)
    (hsuf : strLower (pySuffix (nameOf pdf)) = ".pdf") :
    taskDest env od pdf base =
      od ++ [pyStem (nameOf pdf) ++ "_" ++
        Nat.repr (env.hashStr (pathStr pdf)).natAbs ++ pySuffix (nameOf pdf)] ∧
    pySuffix (nameOf (taskDest env od pdf base)) = pySuffix (nameOf pdf) := by
  have hne0 : pySuffix (nameOf pdf) ≠ "" := by
    intro hc
    rw [hc] at hsuf
    exact absurd hsuf (by decide)
  have h1 : taskDest env od pdf base = od ++ [fallbackName env pdf] := by
    rw [taskDest, hrel]
  refine ⟨?_, ?_⟩
  · rw [h1]
    rfl
  · rw [h1]
    have h2 : nameOf (od ++ [fallbackName env pdf]) = fallbackName env pdf := by
      rw [nameOf, List.getLast?_concat]
      rfl
    rw [h2]
    exact fallbackName_suffix env pdf hne0

/-- The environment for the C8 witness, with a negative hash value. -/
def envHashW : Env :=
  { fs := ⟨[], [[]]⟩
    args := { inputs := [], output_dir := none, recursive := none, ocr := none, config := none }
    yamlAvailable := true
    parseYaml := fun _ => .ok none
    parseJson := fun _ => .ok none
    findSpec := fun _ => .absent
    hashStr := fun _ => (-7 : Int) }

/-- Witness for C8 on a source that is not under its base directory. -/
theorem fallback_dest_name_witness :
    taskDest envHashW ["out"] ["a", "x.pdf"] ["b"] = ["out", "x_7.pdf"] ∧
    pySuffix (nameOf (taskDest envHashW ["out"] ["a", "x.pdf"] ["b"])) = ".pdf" := by
  have h := fallback_dest_name envHashW ["out"] ["a", "x.pdf"] ["b"] (by decide) (by decide)
  constructor
  · rw [h.1]
    decide
  · rw [h.2]
    decide

/-! ### Claims C1 and C4 -/

theorem cfgOrEmpty_ok {env : Env} {cfg : List (String × Value)}
    (h : loadedConfig env = .ok cfg) : cfgOrEmpty env = cfg := by
  rw [cfgOrEmpty, h]

/-- Claim C1 (amended): the process exit status is always 0 or 1, and it is 1
exactly when the config could not be loaded, or no PDF task was collected, or
the conversion loop aborted with an uncaught exception; otherwise it is 0.
Per-item collection issues only show up in the log. -/
theorem exit_code_charact (env : Env) :
    (processExit env = 0 ∨ processExit env = 1) ∧
    (processExit env = 1 ↔
      (isErr (loadedConfig env) = true ∨ tasksOf env = [] ∨
        isErr (loopResultOf env) = true)) := by
  cases hcfg : loadedConfig env with
  | error e =>
    have hexit : processExit env = 1 := by
      simp only [processExit, mainRun, hcfg]
      cases hcat : excCaughtByMain e <;> simp [hcat]
    refine ⟨Or.inr hexit, ?_⟩
    constructor
    · intro _
      exact Or.inl rfl
    · intro _
      exact hexit
  | ok cfg =>
    have hc2 : cfgOrEmpty env = cfg := cfgOrEmpty_ok hcfg
    have hmain : mainRun env = mainAfterConfig env cfg := by rw [mainRun, hcfg]
    have htasks : tasksOf env =
        (collect_pdfs env.fs env.args.inputs (effRecursive env cfg)).1 := by
      rw [tasksOf, hc2]
    have hclog : collectLogOf env =
        (collect_pdfs env.fs env.args.inputs (effRecursive env cfg)).2 := by
      rw [collectLogOf, hc2]
    have hloopr : loopResultOf env = runLoop env (effOutputDir env cfg) (effOcr env cfg)
        ⟨env.fs, backendLogOf env :: (collect_pdfs env.fs env.args.inputs (effRecursive env cfg)).2⟩
        (collect_pdfs env.fs env.args.inputs (effRecursive env cfg)).1 := by
      rw [loopResultOf, hc2, hclog, htasks]
    by_cases hT : (collect_pdfs env.fs env.args.inputs (effRecursive env cfg)).1 = []
    · have hexit : processExit env = 1 := by
        rw [processExit, hmain, mainAfterConfig, if_pos hT]
      refine ⟨Or.inr hexit, ?_⟩
      constructor
      · intro _
        exact Or.inr (Or.inl (htasks.trans hT))
      · intro _
        exact hexit
    · cases hloop : runLoop env (effOutputDir env cfg) (effOcr env cfg)
          ⟨env.fs, backendLogOf env ::
            (collect_pdfs env.fs env.args.inputs (effRecursive env cfg)).2⟩
          (collect_pdfs env.fs env.args.inputs (effRecursive env cfg)).1 with
      | ok stf =>
        have hexit : processExit env = 0 := by
          rw [processExit, hmain, mainAfterConfig, if_neg hT, hloop]
        have hlerr : isErr (loopResultOf env) = false := by rw [hloopr, hloop]; rfl
        refine ⟨Or.inl hexit, ?_⟩
        constructor
        · intro h1
          rw [hexit] at h1
          exact absurd h1 (by decide)
        · rintro (h | h | h)
          · exact Bool.noConfusion h
          · have hcoll : (collect_pdfs env.fs env.args.inputs (effRecursive env cfg)).1 = [] := by
              rw [← htasks]
              exact h
            exact absurd hcoll hT
          · rw [hlerr] at h
            exact absurd h (by decide)
      | error es =>
        obtain ⟨ee, est⟩ := es
        have hexit : processExit env = 1 := by
          rw [processExit, hmain, mainAfterConfig, if_neg hT, hloop]
        have hlerr : isErr (loopResultOf env) = true := by rw [hloopr, hloop]; rfl
        exact ⟨Or.inr hexit, ⟨fun _ => Or.inr (Or.inr hlerr), fun _ => hexit⟩⟩

/-- Environment refuting C1 as stated: a single valid PDF input whose computed
destination equals its own source path, so `shutil.copy2` raises
`SameFileError`, which nothing catches. -/
def envSameW : Env :=
  { fs := ⟨[(["out", "a.pdf"], .bytes [9])], [["out"], []]⟩
    args := { inputs := [["out", "a.pdf"]], output_dir := some ("out"), recursive := none,
              ocr := none, config := none }
    yamlAvailable := true
    parseYaml := fun _ => .ok none
    parseJson := fun _ => .ok none
    findSpec := fun _ => .absent
    hashStr := fun _ => 0 }

/-- Counterexample to C1 as stated: the run exits with status 1 although the
config loaded fine and a valid PDF was collected — `convertpdf out/a.pdf -o out`
dies on an uncaught `SameFileError` during the copy. -/
theorem exit_one_despite_valid_pdf :
    processExit envSameW = 1 ∧ loadedConfig envSameW = .ok [] ∧ tasksOf envSameW ≠ [] ∧
    isErr (loopResultOf envSameW) = true := by
  refine ⟨by decide, by decide, by decide, by decide⟩

/-- Environment for C4: `--config bad.yaml` where the file holds malformed
YAML (the parse oracle raises `yaml.YAMLError`), plus one valid PDF input. -/
def envBadYamlW : Env :=
  { fs := ⟨[(["bad.yaml"], .text ("x: [")), (["a.pdf"], .bytes [5])], [[]]⟩
    args := { inputs := [["a.pdf"]], output_dir := none, recursive := none, ocr := none,
              config := some ("bad.yaml") }
    yamlAvailable := true
    parseYaml := fun _ => .error ()
    parseJson := fun _ => .ok none
    findSpec := fun _ => .found
    hashStr := fun _ => 0 }

/-- Claim C4, evaluated at the failing input: with a malformed `.yaml` config
the run does exit with status 1 and writes no files, but not through the
config-error path the code intends — `yaml.YAMLError` escapes `load_config`
(whose `try` only covers the import), `main`'s `except (OSError, RuntimeError)`
does not catch it, and no "Failed to load config" line is ever logged; the
interpreter dies on the uncaught exception. -/
theorem malformed_yaml_uncaught :
    mainRun envBadYamlW = (.error .yamlError, envBadYamlW.fs, ([] : List LogEntry)) ∧
    processExit envBadYamlW = 1 ∧
    (mainRun envBadYamlW).2.1 = envBadYamlW.fs ∧
    LogEntry.errConfigLoad ∉ (mainRun envBadYamlW).2.2 ∧
    excCaughtByMain Exc.yamlError = false := by
  refine ⟨by decide, by decide, by decide, by decide, rfl⟩

-- Sanity checks of the path primitives against pathlib behaviour.
example : pySuffix ("a.PDF") = ".PDF" := by decide
example : pySuffix (".pdf") = "" := by decide
example : pySuffix ("a") = "" := by decide
example : pySuffix ("archive.tar.gz") = ".gz" := by decide
example : pySuffix ("a.") = "" := by decide
example : pyStem ("a.pdf") = "a" := by decide
example : pyStem (".pdf") = ".pdf" := by decide
example : withSuffixName ("a.pdf") (".html") = "a.html" := by decide
example : withSuffixName ("a") (".html") = "a.html" := by decide
example : strLower (".PDF") = ".pdf" := by decide
example : strToPath ("a/b.pdf") = ["a", "b.pdf"] := by decide
example : strToPath ("") = [] := by decide
example : strToPath ("./a//b") = ["a", "b"] := by decide
example : pathStr (["a", "b.pdf"]) = "a/b.pdf" := by decide
example : pathStr ([]) = "." := by decide

end ConvertPdf
